import Mathlib

/-!
Verification of the realtime preview engine of a non-linear video editor
(Rust sources under apps/desktop and crates/).  The development shallowly
embeds the data model and the operations relevant to the preview presenter
(triple-buffered GPU plane ring, YUV to RGB shader arithmetic), the decode
worker, the timeline resolver, the scrub frame cache and the decode-command
debouncer, and proves properties of those embeddings.
-/

namespace Spec2Proof

/-! Pixel formats and plane-size arithmetic (preview/state.rs). -/

/-- media_io::YuvPixFmt, the two decoded pixel formats. -/
inductive YuvPixFmt : Type
  | nv12
  | p010
deriving DecidableEq, Repr

/-- Bytes per Y texel: NV12 is 8-bit, P010 is 16-bit
(state.rs, the match in present_yuv_from_bytes line 699). -/
def yBpp : YuvPixFmt → Nat
  | .nv12 => 1
  | .p010 => 2

/-- Bytes per UV texel: interleaved pairs, so 2 for NV12 and 4 for P010. -/
def uvBppPerTexel : YuvPixFmt → Nat
  | .nv12 => 2
  | .p010 => 4

/-- Chroma plane width, `(w + 1) / 2` in the source. -/
def uvWidth (w : Nat) : Nat := (w + 1) / 2

/-- Chroma plane height, `(h + 1) / 2` in the source. -/
def uvHeight (h : Nat) : Nat := (h + 1) / 2

/-- Expected Y plane byte count `y_w * y_bpp * y_h`
(present_yuv_from_bytes line 707). -/
def expectedY (fmt : YuvPixFmt) (w h : Nat) : Nat := w * yBpp fmt * h

/-- Expected UV plane byte count `uv_w * uv_bpp_per_texel * uv_h`
(present_yuv_from_bytes line 708). -/
def expectedUV (fmt : YuvPixFmt) (w h : Nat) : Nat :=
  uvWidth w * uvBppPerTexel fmt * uvHeight h

/-- Row alignment helper `align_to` (state.rs line 1403). -/
def align_to (v a : Nat) : Nat := ((v + a - 1) / a) * a

/-! The triple-buffered GPU plane ring (preview/state.rs).
The ring indices `ring_write` and `ring_present` are the observable ring
state; the texture/staging contents are not needed for the index claims. -/

/-- The ring-index part of PreviewState: `ring_write` and `ring_present`. -/
structure RingState : Type where
  write : Nat
  present : Nat
deriving DecidableEq, Repr

/-- Ring indices after construction (PreviewState::new) and after
ensure_yuv_textures recreates the textures (state.rs lines 174-175). -/
def ringInit : RingState := { write := 0, present := 0 }

/-- Ring-index action of upload_yuv_planes (state.rs lines 188-246): the
frame is dropped exactly when `(write + 1) % 3 == present`; otherwise the
planes are written into slot `write % 3` and the indices are published as
`present = write % 3`, `write = (write + 1) % 3`. -/
def uploadPlanesRing (s : RingState) : RingState :=
  let next := (s.write + 1) % 3
  if next = s.present then s
  else { write := next, present := s.write % 3 }

/-- The slot upload_yuv_planes writes into, or none when it drops. -/
def uploadPlanesWrites (s : RingState) : Option Nat :=
  let next := (s.write + 1) % 3
  if next = s.present then none else some (s.write % 3)

/-- Ring-index action of present_yuv_from_bytes (state.rs lines 696 and
774-775): there is no drop guard; the planes always go into slot
`write % 3` and the indices are published the same way. -/
def presentBytesRing (s : RingState) : RingState :=
  let wi := s.write % 3
  { present := wi, write := (wi + 1) % 3 }

/-- The slot present_yuv_from_bytes writes into (it never drops on ring
state). -/
def presentBytesWrites (s : RingState) : Option Nat := some (s.write % 3)

/-- One observable transition of the ring indices: an upload through
upload_yuv_planes, an upload through present_yuv_from_bytes, or the
reset performed by ensure_yuv_textures when the plane size changes. -/
inductive RingStep : RingState → RingState → Prop
  | upload (s : RingState) : RingStep s (uploadPlanesRing s)
  | presentBytes (s : RingState) : RingStep s (presentBytesRing s)
  | reset (s : RingState) : RingStep s ringInit

/-- Ring states reachable from the freshly initialized ring. -/
def RingReachable (s : RingState) : Prop :=
  Relation.ReflTransGen RingStep ringInit s

/-- Shape invariant of the reachable ring states: both indices stay below 3
and the write index is either equal to the present index (freshly reset
ring) or one ahead of it. -/
def RingInv (s : RingState) : Prop :=
  s.write < 3 ∧ s.present < 3 ∧
    (s.write = s.present ∨ s.write = (s.present + 1) % 3)

theorem ringInv_init : RingInv ringInit := by
  refine ⟨by norm_num [ringInit], by norm_num [ringInit], Or.inl rfl⟩

theorem ringInv_upload (s : RingState) (h : RingInv s) :
    RingInv (uploadPlanesRing s) := by
  obtain ⟨hw, hp, hor⟩ := h
  unfold uploadPlanesRing RingInv
  by_cases hg : (s.write + 1) % 3 = s.present
  · simp only [if_pos hg]
    exact ⟨hw, hp, hor⟩
  · simp only [if_neg hg]
    exact ⟨by omega, by omega, Or.inr (by omega)⟩

theorem ringInv_presentBytes (s : RingState) (h : RingInv s) :
    RingInv (presentBytesRing s) := by
  obtain ⟨hw, hp, _⟩ := h
  simp only [presentBytesRing, RingInv, or_true, and_true]
  omega

theorem ringInv_of_reachable (s : RingState) (h : RingReachable s) :
    RingInv s := by
  induction h with
  | refl => exact ringInv_init
  | tail _ hstep ih =>
      cases hstep with
      | upload => exact ringInv_upload _ ih
      | presentBytes => exact ringInv_presentBytes _ ih
      | reset => exact ringInv_init

/-- C1 counterexample: the freshly initialized ring state (write = 0,
present = 0) is reachable, and there an upload does not drop
((0+1) % 3 = 1 differs from present = 0) and writes into slot 0, which is
exactly the slot the present index references.  This refutes the claim
that in no reachable state an upload writes into the present slot. -/
theorem ring_upload_into_present_at_init :
    RingReachable ringInit ∧
      uploadPlanesWrites ringInit = some ringInit.present := by
  exact ⟨Relation.ReflTransGen.refl, by decide⟩

/-- C1 (amended): in every reachable ring state, write = present (freshly
initialized ring) or write = (present + 1) % 3; the drop condition
(write + 1) % 3 = present never holds there, so an upload always writes
into slot write % 3 and publishes present = write % 3,
write = (write + 1) % 3 (for both upload_yuv_planes and
present_yuv_from_bytes); and whenever write differs from present — that
is, in every reachable state other than a freshly initialized ring — the
written slot is not the slot the present index references. -/
theorem ring_upload_never_hits_present (s : RingState) (h : RingReachable s) :
    (s.write = s.present ∨ s.write = (s.present + 1) % 3) ∧
    (s.write + 1) % 3 ≠ s.present ∧
    uploadPlanesRing s = { write := (s.write + 1) % 3, present := s.write % 3 } ∧
    uploadPlanesWrites s = some (s.write % 3) ∧
    presentBytesRing s = { write := (s.write % 3 + 1) % 3, present := s.write % 3 } ∧
    (s.write ≠ s.present → s.write % 3 ≠ s.present) := by
  obtain ⟨hw, hp, hor⟩ := ringInv_of_reachable s h
  have hne : (s.write + 1) % 3 ≠ s.present := by omega
  refine ⟨hor, hne, ?_, ?_, ?_, ?_⟩
  · simp only [uploadPlanesRing, if_neg hne]
  · simp only [uploadPlanesWrites, if_neg hne]
  · simp only [presentBytesRing]
  · intro hws
    omega

/-- Witness for the amended C1 theorem: the state reached after one upload
from the fresh ring has write = 1, present = 0, is reachable, and there
the written slot (1) differs from the present slot (0). -/
theorem ring_upload_never_hits_present_witness :
    RingReachable { write := 1, present := 0 } ∧
      ({ write := 1, present := 0 } : RingState).write % 3 ≠
        ({ write := 1, present := 0 } : RingState).present := by
  have hstep : RingStep ringInit ({ write := 1, present := 0 } : RingState) := by
    have h1 : uploadPlanesRing ringInit = { write := 1, present := 0 } := by decide
    exact h1 ▸ RingStep.upload ringInit
  have hr : RingReachable ({ write := 1, present := 0 } : RingState) :=
    Relation.ReflTransGen.tail Relation.ReflTransGen.refl hstep
  exact ⟨hr, (ring_upload_never_hits_present _ hr).2.2.2.2.2 (by decide)⟩

/-! YUV to RGB conversion arithmetic (the WGSL fragment shaders embedded in
preview/state.rs).  Shader float arithmetic is modelled over the rationals,
with the float literals taken at their decimal value. -/

/-- ConvStd, the BT.709 limited-range conversion uniform of the float
shader path (state.rs lines 1116-1119). -/
structure ConvStd : Type where
  y_bias : ℚ
  y_scale : ℚ
  uv_bias : ℚ
  uv_scale : ℚ
deriving DecidableEq, Repr

/-- Conversion parameters selected in PreviewYuvCallback::prepare
(state.rs lines 1112-1115). -/
def convFor : YuvPixFmt → ConvStd
  | .nv12 => { y_bias := 16/255, y_scale := 255/219, uv_bias := 128/255, uv_scale := 255/224 }
  | .p010 => { y_bias := 64/1023, y_scale := 1023/876, uv_bias := 512/1023, uv_scale := 1023/896 }

/-- WGSL max over the rationals (kept executable). -/
def maxQ (a b : ℚ) : ℚ := if a ≤ b then b else a

/-- WGSL min over the rationals (kept executable). -/
def minQ (a b : ℚ) : ℚ := if a ≤ b then a else b

/-- WGSL clamp. -/
def clampQ (x lo hi : ℚ) : ℚ := minQ (maxQ x lo) hi

/-- The default (NV12/P010 conversion) arm of fs_main in the float shader
(state.rs lines 901-911), as a function of the sampled Y and UV values. -/
def fsMainNv12 (conv : ConvStd) (y u v : ℚ) : ℚ × ℚ × ℚ :=
  let C := maxQ ((y - conv.y_bias) * conv.y_scale) 0
  let D := (u - conv.uv_bias) * conv.uv_scale
  let E := (v - conv.uv_bias) * conv.uv_scale
  let r := clampQ (C + 15748/10000 * E) 0 1
  let g := clampQ (C - 1873/10000 * D - 4681/10000 * E) 0 1
  let b := clampQ (C + 18556/10000 * D) 0 1
  (r, g, b)

/-- C4: with the NV12 uniforms y_bias=16/255, y_scale=255/219,
uv_bias=128/255, uv_scale=255/224 and the coefficients 1.5748, 0.1873,
0.4681, 1.8556, the shader maps (16/255, 128/255, 128/255) to RGB (0,0,0)
and (235/255, 128/255, 128/255) to RGB (1,1,1), in both cases exactly and
hence within the claimed 1/255 tolerance. -/
theorem nv12_shader_black_white_points :
    (fsMainNv12 (convFor .nv12) (16/255) (128/255) (128/255) = (0, 0, 0) ∧
      |((fsMainNv12 (convFor .nv12) (16/255) (128/255) (128/255)).1 : ℚ)| ≤ 1/255) ∧
    (fsMainNv12 (convFor .nv12) (235/255) (128/255) (128/255) = (1, 1, 1) ∧
      |((fsMainNv12 (convFor .nv12) (235/255) (128/255) (128/255)).1 : ℚ) - 1| ≤ 1/255) := by
  have hb : fsMainNv12 (convFor .nv12) (16/255) (128/255) (128/255) = (0, 0, 0) := by
    norm_num [fsMainNv12, convFor, clampQ, maxQ, minQ]
  have hw : fsMainNv12 (convFor .nv12) (235/255) (128/255) (128/255) = (1, 1, 1) := by
    norm_num [fsMainNv12, convFor, clampQ, maxQ, minQ]
  refine ⟨⟨hb, ?_⟩, hw, ?_⟩
  · rw [hb]
    norm_num
  · rw [hw]
    norm_num

/-- The conversion uniform of the P010 uint shader path, built in
PreviewYuvCallback::prepare (state.rs lines 1065-1069); note the scales
are 1/876 and 1/896 there, not 1023/876 and 1023/896. -/
structure ConvStdUint : Type where
  y_offset : ℚ
  y_scale : ℚ
  c_offset : ℚ
  c_scale : ℚ
deriving DecidableEq, Repr

/-- The value `(64.0/1023.0, 1.0/876.0, 512.0/1023.0, 1.0/896.0)` from
state.rs line 1065. -/
def p010UintConv : ConvStdUint :=
  { y_offset := 64/1023, y_scale := 1/876, c_offset := 512/1023, c_scale := 1/896 }

/-- fs_main of the P010 uint shader (state.rs lines 1031-1048), as a
function of the 16-bit texel values loaded for Y and the UV pair. -/
def fsMainP010Uint (conv : ConvStdUint) (y16 u16 v16 : Nat) : ℚ × ℚ × ℚ :=
  let y10 : ℚ := (((y16 >>> 6) &&& 1023 : Nat) : ℚ) / 1023
  let u10 : ℚ := (((u16 >>> 6) &&& 1023 : Nat) : ℚ) / 1023
  let v10 : ℚ := (((v16 >>> 6) &&& 1023 : Nat) : ℚ) / 1023
  let y709 := maxQ (y10 - conv.y_offset) 0 * conv.y_scale
  let u := (u10 - conv.c_offset) * conv.c_scale
  let v := (v10 - conv.c_offset) * conv.c_scale
  (y709 + 15748/10000 * v, y709 - 1873/10000 * u - 4681/10000 * v, y709 + 18556/10000 * u)

/-- Texture formats relevant to the plane ring. -/
inductive TexFormat : Type
  | r8Unorm
  | rg8Unorm
  | r16Unorm
  | rg16Unorm
  | r16Uint
  | rg16Uint
deriving DecidableEq, Repr

/-- Y/UV texture format selection in ensure_yuv_textures (state.rs lines
126-135): P010 falls back to the uint formats when the device lacks
16-bit normalized texture support. -/
def planeFormats (fmt : YuvPixFmt) (supports16 : Bool) : TexFormat × TexFormat :=
  match fmt with
  | .nv12 => (.r8Unorm, .rg8Unorm)
  | .p010 => if supports16 then (.r16Unorm, .rg16Unorm) else (.r16Uint, .rg16Uint)

/-- The use_uint selection in App::render_cpu_frame (preview/ui.rs line
23). -/
def useUint (fmt : YuvPixFmt) (supports16 : Bool) : Bool :=
  fmt = YuvPixFmt.p010 && !supports16

/-- C5: without 16-bit normalized texture support, P010 does select the
R16Uint/Rg16Uint formats and the uint shader variant, and the shader
recovers 10-bit values as (value >> 6)/1023; but on the solid 10-bit gray
input Y = U = V = 512 (16-bit texels 512 << 6 = 32768) the shader outputs
RGB (112/224037, 112/224037, 112/224037) ≈ 0.0005, nowhere near the
mid-gray 0.5 ± 0.01 the claim expects, because the uniform scales are
1/876 and 1/896 instead of the intended 1023/876 and 1023/896. -/
theorem p010_uint_gray_output :
    planeFormats .p010 false = (.r16Uint, .rg16Uint) ∧
    useUint .p010 false = true ∧
    fsMainP010Uint p010UintConv 32768 32768 32768 =
      (112/224037, 112/224037, 112/224037) ∧
    ¬ |(fsMainP010Uint p010UintConv 32768 32768 32768).1 - 1/2| ≤ 1/100 := by
  have hnat : ((32768 >>> 6) &&& 1023 : Nat) = 512 := by decide
  have hval : fsMainP010Uint p010UintConv 32768 32768 32768 =
      (112/224037, 112/224037, 112/224037) := by
    simp only [fsMainP010Uint, p010UintConv, hnat]
    norm_num [maxQ]
  refine ⟨by decide, by decide, hval, ?_⟩
  rw [hval]
  rw [abs_le]
  norm_num

/-! present_yuv_from_bytes (preview/state.rs lines 683-782): the state it
reads and writes, its ensure_yuv_textures prologue, the debug assertions,
the plane-size guard with the process-global log latch, and the ring
publication. -/

/-- The part of PreviewState that present_yuv_from_bytes observes and
mutates, together with the process-global PRESENT_SIZE_MISMATCH_LOGGED
latch (main.rs / state.rs lines 712-713). -/
structure PresentState : Type where
  ring : RingState
  ySize : Nat × Nat
  uvSize : Nat × Nat
  lastFmt : Option YuvPixFmt
  mismatchLogged : Bool
  texturesReady : Bool
deriving DecidableEq, Repr

/-- The state after PreviewState::new: zero sizes, no textures, no format,
latch unset. -/
def presentStateInit : PresentState :=
  { ring := ringInit, ySize := (0, 0), uvSize := (0, 0), lastFmt := none,
    mismatchLogged := false, texturesReady := true }

/-- ensure_yuv_textures (state.rs lines 118-182): when the requested plane
sizes already match and the textures exist, nothing happens; otherwise the
textures are recreated and both ring indices are reset to 0. -/
def ensureYuvTextures (s : PresentState) (w h : Nat) : PresentState :=
  if s.ySize = (w, h) ∧ s.uvSize = (uvWidth w, uvHeight h) ∧ s.texturesReady then s
  else { s with ring := ringInit, ySize := (w, h),
                uvSize := (uvWidth w, uvHeight h), texturesReady := true }

/-- Observable outcome of one present_yuv_from_bytes call. -/
inductive PresentOutcome : Type
  | crashed
  | dropped (logged : Bool)
  | presented
deriving DecidableEq, Repr

/-- present_yuv_from_bytes (state.rs lines 683-782), over plane lengths:
ensure textures, debug-assert the UV row alignment and the plane sizes
(these fire only when the build has debug assertions enabled), then the
release-mode size guard that logs once through the global latch and drops
the frame, and finally the upload and ring publication. -/
def presentYuvFromBytes (debugAssertions : Bool) (s : PresentState)
    (fmt : YuvPixFmt) (yLen uvLen w h : Nat) : PresentOutcome × PresentState :=
  let s1 := ensureYuvTextures s w h
  let uvPadBpr := align_to (uvWidth w * uvBppPerTexel fmt) 256
  if debugAssertions ∧ uvPadBpr % 2 ≠ 0 then (.crashed, s1)
  else if debugAssertions ∧ (yLen ≠ expectedY fmt w h ∨ uvLen ≠ expectedUV fmt w h) then
    (.crashed, s1)
  else if yLen ≠ expectedY fmt w h ∨ uvLen ≠ expectedUV fmt w h then
    (.dropped (!s1.mismatchLogged), { s1 with mismatchLogged := true })
  else
    (.presented, { s1 with ring := presentBytesRing s1.ring, lastFmt := some fmt })

/-- C3 counterexample: in a build with debug assertions enabled, a
mismatched NV12 frame (w = h = 2, Y plane of 3 bytes instead of the
expected 4) makes present_yuv_from_bytes hit debug_assert_eq and crash
instead of dropping the frame, refuting the claim that it never crashes
also in builds where debug assertions are enabled. -/
theorem present_mismatch_crashes_with_debug_assertions :
    (presentYuvFromBytes true presentStateInit .nv12 3 2 2 2).1 =
      PresentOutcome.crashed := by
  decide

/-- C3 (amended): with debug assertions disabled, present_yuv_from_bytes
never crashes; on any plane-size mismatch it drops the frame — logging it
exactly when the process-global latch was still unset, and setting the
latch — returns without presenting, leaves last_fmt unchanged, and leaves
the ring indices unchanged whenever the frame size matches the current
textures (otherwise ensure_yuv_textures has already reset both indices to
0 before the guard runs). -/
theorem present_mismatch_drops_release :
    (∀ (s : PresentState) (fmt : YuvPixFmt) (yLen uvLen w h : Nat),
      (presentYuvFromBytes false s fmt yLen uvLen w h).1 ≠ PresentOutcome.crashed) ∧
    (∀ (s : PresentState) (fmt : YuvPixFmt) (yLen uvLen w h : Nat),
      yLen ≠ expectedY fmt w h ∨ uvLen ≠ expectedUV fmt w h →
      presentYuvFromBytes false s fmt yLen uvLen w h =
        (PresentOutcome.dropped (!s.mismatchLogged),
          { (ensureYuvTextures s w h) with mismatchLogged := true }) ∧
      (presentYuvFromBytes false s fmt yLen uvLen w h).2.lastFmt = s.lastFmt ∧
      (presentYuvFromBytes false s fmt yLen uvLen w h).2.mismatchLogged = true ∧
      (s.ySize = (w, h) ∧ s.uvSize = (uvWidth w, uvHeight h) ∧ s.texturesReady →
        (presentYuvFromBytes false s fmt yLen uvLen w h).2.ring = s.ring)) := by
  constructor
  · intro s fmt yLen uvLen w h
    simp only [presentYuvFromBytes, Bool.false_eq_true, false_and, if_false]
    split <;> simp
  · intro s fmt yLen uvLen w h hmis
    have hlatch : (ensureYuvTextures s w h).mismatchLogged = s.mismatchLogged := by
      simp only [ensureYuvTextures]
      split <;> rfl
    have hfmt : (ensureYuvTextures s w h).lastFmt = s.lastFmt := by
      simp only [ensureYuvTextures]
      split <;> rfl
    have heq : presentYuvFromBytes false s fmt yLen uvLen w h =
        (PresentOutcome.dropped (!s.mismatchLogged),
          { (ensureYuvTextures s w h) with mismatchLogged := true }) := by
      simp only [presentYuvFromBytes, Bool.false_eq_true, false_and, if_false, if_pos hmis, hlatch]
    refine ⟨heq, ?_, ?_, ?_⟩
    · rw [heq]
      exact hfmt
    · rw [heq]
    · intro hsz
      rw [heq]
      simp only [ensureYuvTextures, if_pos hsz]

/-- Witness for the amended C3 theorem at a concrete mismatched NV12 frame
(w = h = 2, Y plane 3 bytes, UV plane 2 bytes) in the fresh state. -/
theorem present_mismatch_drops_release_witness :
    ((presentYuvFromBytes false presentStateInit .nv12 3 2 2 2).1 ≠
      PresentOutcome.crashed) ∧
    ((3 ≠ expectedY .nv12 2 2 ∨ 2 ≠ expectedUV .nv12 2 2) ∧
      presentYuvFromBytes false presentStateInit .nv12 3 2 2 2 =
        (PresentOutcome.dropped true,
          { (ensureYuvTextures presentStateInit 2 2) with mismatchLogged := true })) := by
  refine ⟨present_mismatch_drops_release.1 presentStateInit .nv12 3 2 2 2, ?_, ?_⟩
  · left
    decide
  · exact ((present_mismatch_drops_release.2 presentStateInit .nv12 3 2 2 2
      (Or.inl (by decide))).1)

/-! Decode command debounce (preview/ui.rs lines 107-131) and the decode
worker's per-tick retry loop (decode/worker.rs). -/

/-- PlayState (decode/worker.rs line 14). -/
inductive PlayState : Type
  | paused
  | seeking
  | playing
  | scrubbing
deriving DecidableEq, Repr

/-- DecodeCmd (decode/worker.rs lines 42-47); pts values as rationals. -/
inductive DecodeCmd : Type
  | play (start_pts rate : ℚ)
  | seek (target_pts : ℚ)
  | pause
  | stop
deriving DecidableEq, Repr

/-- Rust f64::round: round half away from zero. -/
def rustRound (x : ℚ) : ℤ := if 0 ≤ x then ⌊x + 1/2⌋ else ⌈x - 1/2⌉

/-- The debounce key remembered in App.last_sent: `(state, path, bucket)`
with `seek_bucket = (media_t * fps_seq).round() as i64`, and no bucket in
the Playing state (ui.rs lines 114-119). -/
def debounceKey (mode : PlayState) (path : String) (mediaT fps : ℚ) :
    PlayState × String × Option ℤ :=
  match mode with
  | .playing => (mode, path, none)
  | _ => (mode, path, some (rustRound (mediaT * fps)))

/-- One debounced dispatch (ui.rs lines 120-131): a command is sent only
when the key differs from last_sent (Play while Playing, Seek otherwise),
and last_sent becomes the key. -/
def debounceStep (last : Option (PlayState × String × Option ℤ))
    (mode : PlayState) (path : String) (mediaT rate fps : ℚ) :
    Option DecodeCmd × Option (PlayState × String × Option ℤ) :=
  let k := debounceKey mode path mediaT fps
  if last = some k then (none, last)
  else
    (some (match mode with
      | .playing => DecodeCmd.play mediaT rate
      | _ => DecodeCmd.seek mediaT), some k)

/-- A UI tick as seen by the debouncer: engine mode, active path, media
time, rate and sequence fps. -/
structure Tick : Type where
  mode : PlayState
  path : String
  mediaT : ℚ
  rate : ℚ
  fps : ℚ
deriving DecidableEq, Repr

/-- Commands sent over a sequence of UI ticks. -/
def debounceRun (last : Option (PlayState × String × Option ℤ)) :
    List Tick → List DecodeCmd
  | [] => []
  | t :: rest =>
      match debounceStep last t.mode t.path t.mediaT t.rate t.fps with
      | (some c, last2) => c :: debounceRun last2 rest
      | (none, last2) => debounceRun last2 rest

theorem debounceStep_second (last : Option (PlayState × String × Option ℤ))
    (mode : PlayState) (path : String) (mediaT rate fps : ℚ) :
    (debounceStep last mode path mediaT rate fps).2 =
      some (debounceKey mode path mediaT fps) := by
  unfold debounceStep
  by_cases h : last = some (debounceKey mode path mediaT fps)
  · simp [h]
  · simp [h]

theorem debounceRun_same_key_nil (t : Tick) (n : ℕ) :
    debounceRun (some (debounceKey t.mode t.path t.mediaT t.fps))
      (List.replicate n t) = [] := by
  induction n with
  | zero => rfl
  | succ m ih =>
      rw [List.replicate_succ]
      unfold debounceRun debounceStep
      simp only [if_pos rfl]
      exact ih

/-- C6: a decode command is sent exactly when the (mode, path, seek
bucket) key — with bucket = round(mediaT * fps) and no bucket while
Playing — differs from the remembered last_sent key; the key is always
remembered afterwards; outside Playing the sent command is a Seek; and a
stationary playhead (the same tick repeated any number of times) produces
at most one command, hence at most one Seek per bucket. -/
theorem decode_debounce_correct :
    (∀ (last : Option (PlayState × String × Option ℤ)) (mode : PlayState)
        (path : String) (mediaT rate fps : ℚ),
      ((debounceStep last mode path mediaT rate fps).1 ≠ none ↔
        last ≠ some (debounceKey mode path mediaT fps)) ∧
      (debounceStep last mode path mediaT rate fps).2 =
        some (debounceKey mode path mediaT fps) ∧
      (mode ≠ PlayState.playing →
        ∀ c, (debounceStep last mode path mediaT rate fps).1 = some c →
          c = DecodeCmd.seek mediaT)) ∧
    (∀ (last : Option (PlayState × String × Option ℤ)) (t : Tick) (n : ℕ),
      (debounceRun last (List.replicate n t)).length ≤ 1) := by
  constructor
  · intro last mode path mediaT rate fps
    refine ⟨?_, debounceStep_second last mode path mediaT rate fps, ?_⟩
    · unfold debounceStep
      by_cases h : last = some (debounceKey mode path mediaT fps)
      · simp [h]
      · simp [h]
    · intro hmode c hc
      unfold debounceStep at hc
      by_cases h : last = some (debounceKey mode path mediaT fps)
      · rw [if_pos h] at hc
        simp at hc
      · rw [if_neg h] at hc
        cases mode with
        | playing => exact absurd rfl hmode
        | paused =>
            simp only [Option.some.injEq] at hc
            exact hc.symm
        | seeking =>
            simp only [Option.some.injEq] at hc
            exact hc.symm
        | scrubbing =>
            simp only [Option.some.injEq] at hc
            exact hc.symm
  · intro last t n
    cases n with
    | zero => simp [debounceRun]
    | succ m =>
        rw [List.replicate_succ]
        have h2 := debounceStep_second last t.mode t.path t.mediaT t.rate t.fps
        unfold debounceRun
        rcases hcmd : debounceStep last t.mode t.path t.mediaT t.rate t.fps with ⟨c, last2⟩
        rw [hcmd] at h2
        have hlast2 : last2 = some (debounceKey t.mode t.path t.mediaT t.fps) := h2
        cases c with
        | some cmd =>
            dsimp only
            simp only [List.length_cons]
            rw [hlast2, debounceRun_same_key_nil]
            simp
        | none =>
            dsimp only
            rw [hlast2, debounceRun_same_key_nil]
            simp

/-- Witness for the debounce theorem: a fresh debouncer in the Paused
state sends a Seek command, and repeated identical ticks send at most one
command. -/
theorem decode_debounce_correct_witness :
    ((debounceStep none PlayState.paused "clip.mp4" 1 1 30).1 ≠ none ↔
      (none : Option (PlayState × String × Option ℤ)) ≠
        some (debounceKey PlayState.paused "clip.mp4" 1 30)) ∧
    (∀ c, (debounceStep none PlayState.paused "clip.mp4" 1 1 30).1 = some c →
      c = DecodeCmd.seek 1) ∧
    (debounceRun none (List.replicate 5
      { mode := PlayState.paused, path := "clip.mp4", mediaT := 1, rate := 1,
        fps := 30 })).length ≤ 1 := by
  refine ⟨(decode_debounce_correct.1 none PlayState.paused "clip.mp4" 1 1 30).1,
    (decode_debounce_correct.1 none PlayState.paused "clip.mp4" 1 1 30).2.2
      (by decide), decode_debounce_correct.2 none _ 5⟩

/-- PREFETCH_BUDGET_PER_TICK (decode/worker.rs line 11). -/
def PREFETCH_BUDGET_PER_TICK : ℕ := 6

/-- The retry loop of attempt_decode (decode/worker.rs lines 84-89):
`while f.is_none() && tries < PREFETCH_BUDGET_PER_TICK` makes one
decoder call whose result is discarded (`let _ = cpu_dec.decode_frame`)
and then a second, checked call per iteration.  The decoder is modelled
as a map from call index to an optional frame; `remaining` stands for
`PREFETCH_BUDGET_PER_TICK - tries` and `calls` counts the decoder calls
made so far.  The result pairs the frame found with the total number of
decoder calls. -/
def attemptDecodeLoop (dec : ℕ → Option ℕ) :
    Option ℕ → ℕ → ℕ → Option ℕ × ℕ
  | some v, _, calls => (some v, calls)
  | none, 0, calls => (none, calls)
  | none, r + 1, calls => attemptDecodeLoop dec (dec (calls + 1)) r (calls + 2)

/-- attempt_decode (decode/worker.rs lines 80-97): one initial decoder
call, then the retry loop with budget PREFETCH_BUDGET_PER_TICK. -/
def attempt_decode (dec : ℕ → Option ℕ) : Option ℕ × ℕ :=
  attemptDecodeLoop dec (dec 0) PREFETCH_BUDGET_PER_TICK 1

/-- C9 counterexample: against a decoder that never returns a frame,
attempt_decode makes 13 decoder calls in a single tick (1 initial + 6
retries of 2 calls each), not at most 7 as the claim states. -/
theorem attempt_decode_thirteen_calls :
    attempt_decode (fun _ => none) = (none, 13) ∧
      ¬ (attempt_decode (fun _ => none)).2 ≤ 7 := by
  decide

theorem attemptDecodeLoop_calls_le (dec : ℕ → Option ℕ) :
    ∀ (r : ℕ) (f : Option ℕ) (calls : ℕ),
      (attemptDecodeLoop dec f r calls).2 ≤ calls + 2 * r := by
  intro r
  induction r with
  | zero =>
      intro f calls
      cases f <;> simp [attemptDecodeLoop]
  | succ m ih =>
      intro f calls
      cases f with
      | some v => simp [attemptDecodeLoop]
      | none =>
          calc (attemptDecodeLoop dec (dec (calls + 1)) m (calls + 2)).2
              ≤ (calls + 2) + 2 * m := ih _ _
            _ ≤ calls + 2 * (m + 1) := by omega

theorem attemptDecodeLoop_all_none (dec : ℕ → Option ℕ)
    (hdec : ∀ i, dec i = none) :
    ∀ (r : ℕ) (calls : ℕ),
      attemptDecodeLoop dec none r calls = (none, calls + 2 * r) := by
  intro r
  induction r with
  | zero => intro calls; simp [attemptDecodeLoop]
  | succ m ih =>
      intro calls
      show attemptDecodeLoop dec (dec (calls + 1)) m (calls + 2) = _
      rw [hdec (calls + 1), ih (calls + 2)]
      congr 1
      omega

/-- C9 (amended): attempt_decode makes at most
2 * PREFETCH_BUDGET_PER_TICK + 1 = 13 decoder calls per tick — one
initial call plus up to 6 retry iterations of two calls each (one
discarded drain call and one checked call) — stopping as soon as a
checked call returns a frame; a decoder that answers the first call
immediately receives exactly one call, and a decoder that never answers
receives exactly 13. -/
theorem attempt_decode_call_budget :
    (∀ dec : ℕ → Option ℕ,
      (attempt_decode dec).2 ≤ 2 * PREFETCH_BUDGET_PER_TICK + 1) ∧
    (∀ (dec : ℕ → Option ℕ) (v : ℕ), dec 0 = some v →
      attempt_decode dec = (some v, 1)) ∧
    (∀ dec : ℕ → Option ℕ, (∀ i, dec i = none) →
      attempt_decode dec = (none, 2 * PREFETCH_BUDGET_PER_TICK + 1)) := by
  refine ⟨?_, ?_, ?_⟩
  · intro dec
    have h := attemptDecodeLoop_calls_le dec PREFETCH_BUDGET_PER_TICK (dec 0) 1
    unfold attempt_decode
    omega
  · intro dec v hv
    unfold attempt_decode
    rw [hv]
    rfl
  · intro dec hdec
    unfold attempt_decode
    rw [hdec 0, attemptDecodeLoop_all_none dec hdec]
    decide

/-- Witness for the amended C9 theorem: a decoder answering at once is
called exactly once; a decoder that never answers is called 13 times. -/
theorem attempt_decode_call_budget_witness :
    (attempt_decode (fun _ => some 42)).2 ≤ 2 * PREFETCH_BUDGET_PER_TICK + 1 ∧
    attempt_decode (fun _ => some 42) = (some 42, 1) ∧
    attempt_decode (fun _ => none) = (none, 2 * PREFETCH_BUDGET_PER_TICK + 1) := by
  exact ⟨attempt_decode_call_budget.1 (fun _ => some 42),
    attempt_decode_call_budget.2.1 (fun _ => some 42) 42 rfl,
    attempt_decode_call_budget.2.2 (fun _ => none) (fun _ => rfl)⟩

/-! The timeline graph data model.  The desktop app manipulates it through
the timeline crate.  The crate version vendored under src/ predates the
graph API, so the type definitions are modelled from the spec (section 3),
with their exact shapes fixed by the desktop-app callers (preview/mod.rs,
timeline/ui.rs, app.rs); the functions proved about below
(visual_source_at, split_clip_at_frame) are embedded from src/. -/

/-- Modelled from the spec: the slice of serde_json::Value needed by the
generator metadata lookups (a value is a string or something else). -/
inductive JsonVal : Type
  | str (s : String)
  | other
deriving DecidableEq, Repr

/-- Modelled from the spec: generator/node metadata as a key-value map. -/
abbrev Metadata : Type := List (String × JsonVal)

/-- metadata.get(key).and_then(as_str) as used by generator_source. -/
def jsonGetStr (md : Metadata) (key : String) : Option String :=
  match md.find? (fun p => decide (p.1 = key)) with
  | some (_, JsonVal.str s) => some s
  | _ => none

/-- Modelled from the spec: FrameRange — (start, duration) in frames with
end = start + duration (spec section 3). -/
structure FrameRange : Type where
  start : ℤ
  duration : ℤ
deriving DecidableEq, Repr

/-- FrameRange::end() = start + duration (`end` is reserved in Lean). -/
def FrameRange.endFrame (r : FrameRange) : ℤ := r.start + r.duration

/-- A frame range covers a playhead when start ≤ p < end (half-open). -/
def FrameRange.covers (r : FrameRange) (p : ℤ) : Prop :=
  r.start ≤ p ∧ p < r.endFrame

instance (r : FrameRange) (p : ℤ) : Decidable (r.covers p) := by
  unfold FrameRange.covers
  infer_instance

/-- Modelled from the spec: Clip — asset id, media range, timeline range,
playback rate, reverse flag (spec section 3), field names as used by the
desktop app. -/
structure ClipNode : Type where
  asset_id : Option String
  media_range : FrameRange
  timeline_range : FrameRange
  playback_rate : ℚ
  reverse : Bool
deriving DecidableEq, Repr

/-- Modelled from the spec: the TimelineNode tagged variant
Clip/Generator/Transition/Effect. -/
inductive TimelineNodeKind : Type
  | clip (clip : ClipNode)
  | generator (generator_id : String) (timeline_range : FrameRange)
      (metadata : Metadata)
  | transition
  | effect
deriving DecidableEq, Repr

/-- Modelled from the spec: a timeline node with id, label, kind, locked
flag and metadata. -/
structure TimelineNode : Type where
  id : ℕ
  label : Option String
  kind : TimelineNodeKind
  locked : Bool
  metadata : Metadata
deriving DecidableEq, Repr

/-- Modelled from the spec: track kinds Video/Audio/Automation/Custom. -/
inductive TrackKind : Type
  | video
  | audio
  | automation
  | custom (id : String)
deriving DecidableEq, Repr

/-- Modelled from the spec: a track binding holds an id, name, kind and an
ordered sequence of node ids. -/
structure TrackBinding : Type where
  id : ℕ
  name : String
  kind : TrackKind
  node_ids : List ℕ
deriving DecidableEq, Repr

/-- Modelled from the spec: the timeline graph owns its nodes in a map
keyed by node id (modelled as an association list) while tracks hold node
identifiers only. -/
structure TimelineGraph : Type where
  tracks : List TrackBinding
  nodes : List (ℕ × TimelineNode)
deriving DecidableEq, Repr

/-- graph.nodes.get(node_id) on the association-list model. -/
def lookupNode (g : TimelineGraph) (nodeId : ℕ) : Option TimelineNode :=
  match g.nodes.find? (fun p => decide (p.1 = nodeId)) with
  | some p => some p.2
  | none => none

/-- VisualSource (main.rs line 807). -/
structure VisualSource : Type where
  path : String
  is_image : Bool
deriving DecidableEq, Repr

/-- node_frame_range (preview/mod.rs lines 30-36). -/
def node_frame_range (node : TimelineNode) : Option FrameRange :=
  match node.kind with
  | .clip clip => some clip.timeline_range
  | .generator _ timeline_range _ => some timeline_range
  | _ => none

/-- clip_source (preview/mod.rs lines 38-42): requires an asset id, marks
the source as an image exactly on tracks of kind Custom("image"). -/
def clip_source (binding : TrackBinding) (clip : ClipNode) : Option VisualSource :=
  match clip.asset_id with
  | none => none
  | some path =>
      some { path := path, is_image := decide (binding.kind = TrackKind.custom "image") }

/-- generator_source (preview/mod.rs lines 44-53). -/
def generator_source (generator_id : String) (metadata : Metadata) :
    Option VisualSource :=
  if generator_id = "solid" then
    some { path := "solid:" ++ (jsonGetStr metadata "color").getD "#000000",
           is_image := true }
  else if generator_id = "text" then
    some { path := "text://generator", is_image := true }
  else none

/-- What the per-node body of the visual_source_at loop does: stop the
whole function with a result, or continue with the next node. -/
inductive WalkOutcome : Type
  | stop (result : Option VisualSource)
  | next
deriving DecidableEq, Repr

/-- One iteration of the inner node loop of visual_source_at
(preview/mod.rs lines 14-24): a node id missing from the graph map makes
the whole function return None (the `?` operator); transitions, effects
and non-covering nodes are skipped; a covering clip returns clip_source
(even when that is None); a covering generator returns its source when it
has one and is skipped otherwise. -/
def visitNode (g : TimelineGraph) (playhead : ℤ) (binding : TrackBinding)
    (nodeId : ℕ) : WalkOutcome :=
  match lookupNode g nodeId with
  | none => .stop none
  | some node =>
      match node_frame_range node with
      | none => .next
      | some range =>
          if playhead < range.start ∨ range.endFrame ≤ playhead then .next
          else
            match node.kind with
            | .clip clip => .stop (clip_source binding clip)
            | .generator generator_id _ metadata =>
                match generator_source generator_id metadata with
                | some src => .stop (some src)
                | none => .next
            | _ => .next

/-- The inner node loop of visual_source_at over a track's node ids. -/
def walkNodes (g : TimelineGraph) (playhead : ℤ) (binding : TrackBinding) :
    List ℕ → WalkOutcome
  | [] => .next
  | nodeId :: rest =>
      match visitNode g playhead binding nodeId with
      | .stop r => .stop r
      | .next => walkNodes g playhead binding rest

/-- The outer track loop of visual_source_at: tracks are visited in the
given order (the caller passes graph.tracks reversed), audio tracks are
skipped, and the first track whose node loop stops decides the result. -/
def walkTracks (g : TimelineGraph) (playhead : ℤ) :
    List TrackBinding → Option VisualSource
  | [] => none
  | binding :: rest =>
      if binding.kind = TrackKind.audio then walkTracks g playhead rest
      else
        match walkNodes g playhead binding binding.node_ids with
        | .stop r => r
        | .next => walkTracks g playhead rest

/-- visual_source_at (preview/mod.rs lines 11-28). -/
def visual_source_at (g : TimelineGraph) (playhead : ℤ) : Option VisualSource :=
  walkTracks g playhead g.tracks.reverse

theorem visitNode_stop_some (g : TimelineGraph) (p : ℤ) (b : TrackBinding)
    (nid : ℕ) (src : VisualSource)
    (h : visitNode g p b nid = WalkOutcome.stop (some src)) :
    ∃ node, lookupNode g nid = some node ∧
      (∃ r, node_frame_range node = some r ∧ r.covers p) ∧
      ((∃ clip, node.kind = TimelineNodeKind.clip clip ∧
          clip_source b clip = some src) ∨
        (∃ gid tr md, node.kind = TimelineNodeKind.generator gid tr md ∧
          generator_source gid md = some src)) := by
  cases hl : lookupNode g nid with
  | none => simp [visitNode, hl] at h
  | some node =>
      cases hr : node_frame_range node with
      | none => simp [visitNode, hl, hr] at h
      | some range =>
          by_cases hc : p < range.start ∨ range.endFrame ≤ p
          · simp [visitNode, hl, hr, hc] at h
          · simp only [visitNode, hl, hr, hc, if_false] at h
            refine ⟨node, rfl, ⟨range, hr, ?_⟩, ?_⟩
            · unfold FrameRange.covers
              push_neg at hc
              exact hc
            · cases hk : node.kind with
              | clip clip =>
                  simp only [hk, WalkOutcome.stop.injEq] at h
                  exact Or.inl ⟨clip, rfl, h⟩
              | generator gid tr md =>
                  simp only [hk] at h
                  cases hg : generator_source gid md with
                  | none => simp [hg] at h
                  | some s =>
                      simp only [hg, WalkOutcome.stop.injEq,
                        Option.some.injEq] at h
                      refine Or.inr ⟨gid, tr, md, rfl, ?_⟩
                      rw [hg, h]
              | transition => simp [hk] at h
              | effect => simp [hk] at h

theorem walkNodes_stop_some (g : TimelineGraph) (p : ℤ) (b : TrackBinding)
    (ids : List ℕ) (src : VisualSource)
    (h : walkNodes g p b ids = WalkOutcome.stop (some src)) :
    ∃ nid ∈ ids, visitNode g p b nid = WalkOutcome.stop (some src) := by
  induction ids with
  | nil => simp [walkNodes] at h
  | cons nid rest ih =>
      unfold walkNodes at h
      cases hv : visitNode g p b nid with
      | stop r =>
          rw [hv] at h
          refine ⟨nid, by simp, ?_⟩
          rw [hv]
          exact h
      | next =>
          rw [hv] at h
          obtain ⟨n2, hmem, hvis⟩ := ih h
          exact ⟨n2, by simp [hmem], hvis⟩

theorem walkTracks_some (g : TimelineGraph) (p : ℤ) (L : List TrackBinding)
    (src : VisualSource) (h : walkTracks g p L = some src) :
    ∃ b ∈ L, b.kind ≠ TrackKind.audio ∧
      walkNodes g p b b.node_ids = WalkOutcome.stop (some src) := by
  induction L with
  | nil => simp [walkTracks] at h
  | cons b rest ih =>
      unfold walkTracks at h
      by_cases ha : b.kind = TrackKind.audio
      · rw [if_pos ha] at h
        obtain ⟨b2, hmem, hb2⟩ := ih h
        exact ⟨b2, by simp [hmem], hb2⟩
      · rw [if_neg ha] at h
        cases hw : walkNodes g p b b.node_ids with
        | stop r =>
            rw [hw] at h
            dsimp only at h
            refine ⟨b, by simp, ha, ?_⟩
            rw [hw, h]
        | next =>
            rw [hw] at h
            dsimp only at h
            obtain ⟨b2, hmem, hb2⟩ := ih h
            exact ⟨b2, by simp [hmem], hb2⟩

theorem visitNode_no_cover (g : TimelineGraph) (p : ℤ) (b : TrackBinding)
    (nid : ℕ)
    (hno : ∀ node, lookupNode g nid = some node →
      ∀ r, node_frame_range node = some r → ¬ r.covers p) :
    visitNode g p b nid = WalkOutcome.stop none ∨
      visitNode g p b nid = WalkOutcome.next := by
  cases hl : lookupNode g nid with
  | none =>
      left
      simp [visitNode, hl]
  | some node =>
      cases hr : node_frame_range node with
      | none =>
          right
          simp [visitNode, hl, hr]
      | some range =>
          have hnc := hno node hl range hr
          unfold FrameRange.covers at hnc
          have hcond : p < range.start ∨ range.endFrame ≤ p := by omega
          right
          simp [visitNode, hl, hr, hcond]

theorem walkNodes_no_cover (g : TimelineGraph) (p : ℤ) (b : TrackBinding)
    (ids : List ℕ)
    (hno : ∀ nid ∈ ids, visitNode g p b nid = WalkOutcome.stop none ∨
      visitNode g p b nid = WalkOutcome.next) :
    walkNodes g p b ids = WalkOutcome.stop none ∨
      walkNodes g p b ids = WalkOutcome.next := by
  induction ids with
  | nil => exact Or.inr rfl
  | cons nid rest ih =>
      unfold walkNodes
      rcases hno nid (by simp) with hv | hv
      · rw [hv]
        exact Or.inl rfl
      · rw [hv]
        exact ih (fun n2 hmem => hno n2 (by simp [hmem]))

theorem walkTracks_no_cover (g : TimelineGraph) (p : ℤ)
    (L : List TrackBinding)
    (hno : ∀ b ∈ L, b.kind ≠ TrackKind.audio → ∀ nid ∈ b.node_ids,
      ∀ node, lookupNode g nid = some node →
      ∀ r, node_frame_range node = some r → ¬ r.covers p) :
    walkTracks g p L = none := by
  induction L with
  | nil => rfl
  | cons b rest ih =>
      unfold walkTracks
      by_cases ha : b.kind = TrackKind.audio
      · rw [if_pos ha]
        exact ih (fun b2 hmem => hno b2 (by simp [hmem]))
      · rw [if_neg ha]
        have hnodes := walkNodes_no_cover g p b b.node_ids
          (fun nid hmem => visitNode_no_cover g p b nid
            (fun node hl r hr => hno b (by simp) ha nid hmem node hl r hr))
        rcases hnodes with hw | hw
        · rw [hw]
        · rw [hw]
          exact ih (fun b2 hmem => hno b2 (by simp [hmem]))

/-- C2: whenever visual_source_at returns a source, some non-audio track
of the graph holds a Clip or Generator node found in the node map whose
timeline range covers the playhead in the half-open sense
(start ≤ p < start + duration, so a playhead exactly at the range end is
not covered), and the returned source is exactly that node's source —
clip_source of the covering clip on its track, or generator_source of
the covering generator; and when no non-audio track holds such a
covering node, the function returns None. -/
theorem visual_source_at_covering :
    (∀ (g : TimelineGraph) (p : ℤ) (src : VisualSource),
      visual_source_at g p = some src →
      ∃ b ∈ g.tracks, b.kind ≠ TrackKind.audio ∧
        ∃ nid ∈ b.node_ids, ∃ node, lookupNode g nid = some node ∧
          (∃ r, node_frame_range node = some r ∧
            r.start ≤ p ∧ p < r.start + r.duration) ∧
          ((∃ clip, node.kind = TimelineNodeKind.clip clip ∧
              clip_source b clip = some src) ∨
            (∃ gid tr md, node.kind = TimelineNodeKind.generator gid tr md ∧
              generator_source gid md = some src))) ∧
    (∀ (g : TimelineGraph) (p : ℤ),
      (∀ b ∈ g.tracks, b.kind ≠ TrackKind.audio → ∀ nid ∈ b.node_ids,
        ∀ node, lookupNode g nid = some node →
        ∀ r, node_frame_range node = some r →
        ¬ (r.start ≤ p ∧ p < r.endFrame)) →
      visual_source_at g p = none) := by
  constructor
  · intro g p src h
    obtain ⟨b, hmem, ha, hw⟩ := walkTracks_some g p g.tracks.reverse src h
    obtain ⟨nid, hnmem, hvis⟩ := walkNodes_stop_some g p b b.node_ids src hw
    obtain ⟨node, hl, ⟨r, hr, hcov⟩, hsrc⟩ :=
      visitNode_stop_some g p b nid src hvis
    refine ⟨b, List.mem_reverse.mp hmem, ha, nid, hnmem, node, hl,
      ⟨r, hr, hcov.1, ?_⟩, hsrc⟩
    have := hcov.2
    unfold FrameRange.endFrame at this
    exact this
  · intro g p hno
    exact walkTracks_no_cover g p g.tracks.reverse
      (fun b hmem => hno b (List.mem_reverse.mp hmem))

/-- A one-track, one-clip graph used as a concrete witness. -/
def c2Clip : ClipNode :=
  { asset_id := some "a.mp4", media_range := { start := 0, duration := 10 },
    timeline_range := { start := 0, duration := 10 }, playback_rate := 1,
    reverse := false }

/-- The node wrapping the witness clip. -/
def c2Node : TimelineNode :=
  { id := 7, label := none, kind := TimelineNodeKind.clip c2Clip,
    locked := false, metadata := [] }

/-- The witness graph: one video track holding the clip node. -/
def c2Graph : TimelineGraph :=
  { tracks := [{ id := 1, name := "V1", kind := TrackKind.video,
                 node_ids := [7] }],
    nodes := [(7, c2Node)] }

/-- The empty witness graph. -/
def c2Empty : TimelineGraph := { tracks := [], nodes := [] }

/-- Witness for C2: at playhead 5 the witness graph resolves to the
source of its covering clip, which the covering facts pin down; the
empty graph resolves to None. -/
theorem visual_source_at_covering_witness :
    (∃ b ∈ c2Graph.tracks, b.kind ≠ TrackKind.audio ∧
      ∃ nid ∈ b.node_ids, ∃ node, lookupNode c2Graph nid = some node ∧
        (∃ r, node_frame_range node = some r ∧
          r.start ≤ (5 : ℤ) ∧ (5 : ℤ) < r.start + r.duration) ∧
        ((∃ clip, node.kind = TimelineNodeKind.clip clip ∧
            clip_source b clip = some { path := "a.mp4", is_image := false }) ∨
          (∃ gid tr md, node.kind = TimelineNodeKind.generator gid tr md ∧
            generator_source gid md =
              some { path := "a.mp4", is_image := false }))) ∧
    visual_source_at c2Empty 0 = none := by
  constructor
  · exact visual_source_at_covering.1 c2Graph 5
      { path := "a.mp4", is_image := false } (by decide)
  · exact visual_source_at_covering.2 c2Empty 0 (by simp [c2Empty])

/-- C10: during the top-down walk of visual_source_at, a track node id
absent from the graph's node map stops the whole function with None (the
`?` operator), and a covering clip with no asset id stops it with None as
well (clip_source's `?`); consequently, when the first node of a
non-audio track hits either case, the function returns None regardless of
the remaining nodes on that track and of every lower-priority track that
follows. -/
theorem walk_stops_on_missing_or_assetless :
    (∀ (g : TimelineGraph) (p : ℤ) (b : TrackBinding) (nid : ℕ),
      lookupNode g nid = none →
      visitNode g p b nid = WalkOutcome.stop none) ∧
    (∀ (g : TimelineGraph) (p : ℤ) (b : TrackBinding) (nid : ℕ)
        (node : TimelineNode) (clip : ClipNode),
      lookupNode g nid = some node →
      node.kind = TimelineNodeKind.clip clip →
      clip.asset_id = none →
      clip.timeline_range.covers p →
      visitNode g p b nid = WalkOutcome.stop none) ∧
    (∀ (g : TimelineGraph) (p : ℤ) (b : TrackBinding)
        (rest : List TrackBinding) (nid : ℕ) (ids : List ℕ),
      b.kind ≠ TrackKind.audio →
      b.node_ids = nid :: ids →
      visitNode g p b nid = WalkOutcome.stop none →
      walkTracks g p (b :: rest) = none) := by
  refine ⟨?_, ?_, ?_⟩
  · intro g p b nid hl
    simp [visitNode, hl]
  · intro g p b nid node clip hl hk ha hcov
    have hr : node_frame_range node = some clip.timeline_range := by
      simp [node_frame_range, hk]
    have hcond : ¬ (p < clip.timeline_range.start ∨
        clip.timeline_range.endFrame ≤ p) := by
      unfold FrameRange.covers at hcov
      omega
    simp [visitNode, hl, hr, hcond, hk, clip_source, ha]
  · intro g p b rest nid ids hna hids hvis
    unfold walkTracks
    rw [if_neg hna, hids]
    unfold walkNodes
    rw [hvis]

/-- A two-track witness graph: the topmost (last) track references a node
id that is missing from the node map, while the bottom track holds a
presentable covering clip. -/
def c10Graph : TimelineGraph :=
  { tracks := [{ id := 1, name := "V1", kind := TrackKind.video,
                 node_ids := [7] },
               { id := 2, name := "V2", kind := TrackKind.video,
                 node_ids := [99] }],
    nodes := [(7, c2Node)] }

/-- Witness for C10: in the witness graph the missing node id 99 on the
topmost track makes visual_source_at return None even though the bottom
track covers the playhead with a presentable clip. -/
theorem walk_stops_on_missing_or_assetless_witness :
    visitNode c10Graph 5
      { id := 2, name := "V2", kind := TrackKind.video, node_ids := [99] } 99 =
      WalkOutcome.stop none ∧
    walkTracks c10Graph 5
      ({ id := 2, name := "V2", kind := TrackKind.video, node_ids := [99] } ::
        [{ id := 1, name := "V1", kind := TrackKind.video, node_ids := [7] }]) =
      none ∧
    visual_source_at c10Graph 5 = none ∧
    visual_source_at c2Graph 5 ≠ none := by
  have h1 : visitNode c10Graph 5
      { id := 2, name := "V2", kind := TrackKind.video, node_ids := [99] } 99 =
      WalkOutcome.stop none :=
    walk_stops_on_missing_or_assetless.1 c10Graph 5
      { id := 2, name := "V2", kind := TrackKind.video, node_ids := [99] } 99
      (by decide)
  have h2 := walk_stops_on_missing_or_assetless.2.2 c10Graph 5
    { id := 2, name := "V2", kind := TrackKind.video, node_ids := [99] }
    [{ id := 1, name := "V1", kind := TrackKind.video, node_ids := [7] }]
    99 [] (by decide) rfl h1
  exact ⟨h1, h2, h2, by decide⟩

/-! Clip splitting (timeline/ui.rs, App::split_clip_at_frame, lines
274-325).  The graph mutations go through apply_timeline_command into the
timeline crate; the command application is modelled from the spec
(section 4.1: UpdateNode replaces the node in the map, InsertNode adds a
node and places its id in a track). -/

/-- Modelled from the spec: applyCommand(UpdateNode) — replace the map
entry whose key equals the node's id. -/
def updateNode (g : TimelineGraph) (n : TimelineNode) : TimelineGraph :=
  { g with nodes := g.nodes.map (fun p => if p.1 = n.id then (p.1, n) else p) }

/-- Modelled from the spec: applyCommand(InsertNode) with a single track
placement — add the node to the map and insert its id into the target
track's id sequence at the given position (at the back when none). -/
def insertNode (g : TimelineGraph) (n : TimelineNode) (trackId : ℕ)
    (pos : Option ℕ) : TimelineGraph :=
  { tracks := g.tracks.map (fun b =>
      if b.id = trackId then
        { b with node_ids :=
            match pos with
            | some i => b.node_ids.insertIdx i n.id
            | none => b.node_ids ++ [n.id] }
      else b),
    nodes := g.nodes ++ [(n.id, n)] }

/-- App::split_clip_at_frame (timeline/ui.rs lines 274-325), with the
fresh NodeId::new() for the right half passed in as freshId.  Looks up
the clip at (track, item); a split at or outside the range boundaries
returns the graph unchanged; otherwise the node is updated to the left
half and a new node holding the right half is inserted right after it. -/
def split_clip_at_frame (g : TimelineGraph) (track item : ℕ)
    (split_frame : ℤ) (freshId : ℕ) : TimelineGraph :=
  match g.tracks[track]? with
  | none => g
  | some track_binding =>
      match track_binding.node_ids[item]? with
      | none => g
      | some node_id =>
          match lookupNode g node_id with
          | none => g
          | some node =>
              match node.kind with
              | TimelineNodeKind.clip clip =>
                  let start := clip.timeline_range.start
                  let stop := clip.timeline_range.endFrame
                  if split_frame ≤ start ∨ stop ≤ split_frame then g
                  else
                    let left_dur := split_frame - start
                    let right_dur := stop - split_frame
                    let left_clip := { clip with
                      timeline_range := { start := start, duration := left_dur },
                      media_range := { start := clip.media_range.start,
                                       duration := left_dur } }
                    let g1 := updateNode g
                      { node with kind := TimelineNodeKind.clip left_clip }
                    let right_media_start := clip.media_range.start + left_dur
                    let right_clip := { clip with
                      timeline_range := { start := split_frame,
                                          duration := right_dur },
                      media_range := { start := right_media_start,
                                       duration := right_dur } }
                    let right_node : TimelineNode :=
                      { id := freshId, label := node.label,
                        kind := TimelineNodeKind.clip right_clip,
                        locked := node.locked, metadata := node.metadata }
                    insertNode g1 right_node track_binding.id (some (item + 1))
              | TimelineNodeKind.generator generator_id timeline_range metadata =>
                  let start := timeline_range.start
                  let stop := timeline_range.endFrame
                  if split_frame ≤ start ∨ stop ≤ split_frame then g
                  else
                    let left_dur := split_frame - start
                    let right_dur := stop - split_frame
                    let g1 := updateNode g
                      { node with
                        kind := TimelineNodeKind.generator generator_id
                          (FrameRange.mk start left_dur) metadata }
                    let right_node : TimelineNode :=
                      { id := freshId, label := node.label,
                        kind := TimelineNodeKind.generator generator_id
                          (FrameRange.mk split_frame right_dur) metadata,
                        locked := node.locked, metadata := node.metadata }
                    insertNode g1 right_node track_binding.id (some (item + 1))
              | _ => g

/-- Association-list lookup, a structural restatement of lookupNode used
in the proofs below. -/
def findNode : List (ℕ × TimelineNode) → ℕ → Option TimelineNode
  | [], _ => none
  | p :: rest, i => if p.1 = i then some p.2 else findNode rest i

theorem lookupNode_eq_findNode (g : TimelineGraph) (i : ℕ) :
    lookupNode g i = findNode g.nodes i := by
  unfold lookupNode
  induction g.nodes with
  | nil => rfl
  | cons p rest ih =>
      by_cases hp : p.1 = i
      · rw [List.find?_cons_of_pos _ (by simp [hp])]
        simp [findNode, hp]
      · rw [List.find?_cons_of_neg _ (by simp [hp])]
        rw [ih]
        simp [findNode, hp]

theorem findNode_update_self (ns : List (ℕ × TimelineNode))
    (n : TimelineNode) (node : TimelineNode)
    (h : findNode ns n.id = some node) :
    findNode (ns.map (fun p => if p.1 = n.id then (p.1, n) else p)) n.id =
      some n := by
  induction ns with
  | nil => simp [findNode] at h
  | cons p rest ih =>
      by_cases hp : p.1 = n.id
      · simp [findNode, hp]
      · rw [findNode, if_neg hp] at h
        simp only [List.map_cons, if_neg hp]
        rw [findNode, if_neg hp]
        exact ih h

theorem findNode_update_ne (ns : List (ℕ × TimelineNode))
    (n : TimelineNode) (i : ℕ) (h : i ≠ n.id) :
    findNode (ns.map (fun p => if p.1 = n.id then (p.1, n) else p)) i =
      findNode ns i := by
  induction ns with
  | nil => rfl
  | cons p rest ih =>
      by_cases hp : p.1 = n.id
      · have hpi : ¬ p.1 = i := by
          rw [hp]
          exact fun hc => h hc.symm
        have hni : ¬ n.id = i := fun hc => h hc.symm
        simp only [List.map_cons, if_pos hp]
        rw [findNode, findNode, if_neg hpi]
        simp only [hp, if_neg hni]
        exact ih
      · simp only [List.map_cons, if_neg hp]
        rw [findNode, findNode]
        by_cases hpi : p.1 = i
        · simp [hpi]
        · rw [if_neg hpi, if_neg hpi]
          exact ih

theorem findNode_append_left (ns ms : List (ℕ × TimelineNode)) (i : ℕ)
    (node : TimelineNode) (h : findNode ns i = some node) :
    findNode (ns ++ ms) i = some node := by
  induction ns with
  | nil => simp [findNode] at h
  | cons p rest ih =>
      rw [findNode] at h
      by_cases hp : p.1 = i
      · rw [if_pos hp] at h
        simp only [List.cons_append]
        rw [findNode, if_pos hp]
        exact h
      · rw [if_neg hp] at h
        simp only [List.cons_append]
        rw [findNode, if_neg hp]
        exact ih h

theorem findNode_append_fresh (ns : List (ℕ × TimelineNode)) (i : ℕ)
    (n : TimelineNode) (h : ∀ q ∈ ns, q.1 ≠ i) :
    findNode (ns ++ [(i, n)]) i = some n := by
  induction ns with
  | nil => simp [findNode]
  | cons p rest ih =>
      have hp : ¬ p.1 = i := h p (by simp)
      simp only [List.cons_append]
      rw [findNode, if_neg hp]
      exact ih (fun q hq => h q (by simp [hq]))

theorem lookupNode_updateNode_self (g : TimelineGraph) (n : TimelineNode)
    (node : TimelineNode) (h : lookupNode g n.id = some node) :
    lookupNode (updateNode g n) n.id = some n := by
  rw [lookupNode_eq_findNode] at h ⊢
  exact findNode_update_self g.nodes n node h

theorem lookupNode_insertNode_old (g : TimelineGraph) (n : TimelineNode)
    (tid : ℕ) (pos : Option ℕ) (i : ℕ) (node : TimelineNode)
    (h : lookupNode g i = some node) :
    lookupNode (insertNode g n tid pos) i = some node := by
  rw [lookupNode_eq_findNode] at h ⊢
  exact findNode_append_left g.nodes [(n.id, n)] i node h

theorem lookupNode_insertNode_fresh (g : TimelineGraph) (n : TimelineNode)
    (tid : ℕ) (pos : Option ℕ) (h : ∀ q ∈ g.nodes, q.1 ≠ n.id) :
    lookupNode (insertNode g n tid pos) n.id = some n := by
  rw [lookupNode_eq_findNode]
  exact findNode_append_fresh g.nodes n.id n h

theorem updateKeys_ne (ns : List (ℕ × TimelineNode)) (n : TimelineNode)
    (j : ℕ) (h : ∀ q ∈ ns, q.1 ≠ j) :
    ∀ q ∈ ns.map (fun p => if p.1 = n.id then (p.1, n) else p), q.1 ≠ j := by
  intro q hq
  obtain ⟨q0, hq0, hmap⟩ := List.mem_map.mp hq
  by_cases hp : q0.1 = n.id
  · rw [if_pos hp] at hmap
    rw [← hmap]
    exact h q0 hq0
  · rw [if_neg hp] at hmap
    rw [← hmap]
    exact h q0 hq0

/-- C7: splitting a clip at a frame f strictly inside its timeline range
(s, d) with media range (m, dm) replaces it by a left clip with timeline
range (s, f - s) and media range (m, f - s), and inserts a fresh right
clip with timeline range (f, s + d - f) and media range
(m + (f - s), s + d - f); the two timeline ranges partition the original
coverage with no frame lost or duplicated.  A split at or outside the
boundaries leaves the graph unchanged. -/
theorem split_clip_at_frame_correct
    (g : TimelineGraph) (track item : ℕ) (b : TrackBinding) (nid : ℕ)
    (node : TimelineNode) (clip : ClipNode) (freshId : ℕ)
    (hb : g.tracks[track]? = some b)
    (hnid : b.node_ids[item]? = some nid)
    (hnode : lookupNode g nid = some node)
    (hid : node.id = nid)
    (hkind : node.kind = TimelineNodeKind.clip clip)
    (hfresh : ∀ q ∈ g.nodes, q.1 ≠ freshId) :
    (∀ f : ℤ, clip.timeline_range.start < f →
      f < clip.timeline_range.endFrame →
      lookupNode (split_clip_at_frame g track item f freshId) nid =
        some { node with kind := TimelineNodeKind.clip { clip with
          timeline_range := FrameRange.mk clip.timeline_range.start
            (f - clip.timeline_range.start),
          media_range := FrameRange.mk clip.media_range.start
            (f - clip.timeline_range.start) } } ∧
      lookupNode (split_clip_at_frame g track item f freshId) freshId =
        some
          { id := freshId, label := node.label,
            kind := TimelineNodeKind.clip { clip with
              timeline_range := FrameRange.mk f
                (clip.timeline_range.endFrame - f),
              media_range := FrameRange.mk
                (clip.media_range.start + (f - clip.timeline_range.start))
                (clip.timeline_range.endFrame - f) },
            locked := node.locked, metadata := node.metadata } ∧
      (∀ t : ℤ,
        ((FrameRange.mk clip.timeline_range.start
            (f - clip.timeline_range.start)).covers t ∨
          (FrameRange.mk f (clip.timeline_range.endFrame - f)).covers t) ↔
        clip.timeline_range.covers t) ∧
      (∀ t : ℤ, ¬ ((FrameRange.mk clip.timeline_range.start
            (f - clip.timeline_range.start)).covers t ∧
          (FrameRange.mk f (clip.timeline_range.endFrame - f)).covers t))) ∧
    (∀ f : ℤ, f ≤ clip.timeline_range.start ∨
        clip.timeline_range.endFrame ≤ f →
      split_clip_at_frame g track item f freshId = g) := by
  constructor
  · intro f h1 h2
    have hcond : ¬ (f ≤ clip.timeline_range.start ∨
        clip.timeline_range.endFrame ≤ f) := by
      push_neg
      exact ⟨h1, h2⟩
    have hsplit : split_clip_at_frame g track item f freshId =
        insertNode
          (updateNode g { node with kind := TimelineNodeKind.clip { clip with
            timeline_range := FrameRange.mk clip.timeline_range.start
              (f - clip.timeline_range.start),
            media_range := FrameRange.mk clip.media_range.start
              (f - clip.timeline_range.start) } })
          { id := freshId, label := node.label,
            kind := TimelineNodeKind.clip { clip with
              timeline_range := FrameRange.mk f
                (clip.timeline_range.endFrame - f),
              media_range := FrameRange.mk
                (clip.media_range.start + (f - clip.timeline_range.start))
                (clip.timeline_range.endFrame - f) },
            locked := node.locked, metadata := node.metadata }
          b.id (some (item + 1)) := by
      simp only [split_clip_at_frame, hb, hnid, hnode, hkind]
      rw [if_neg hcond]
    refine ⟨?_, ?_, ?_, ?_⟩
    · rw [hsplit]
      apply lookupNode_insertNode_old
      rw [← hid]
      apply lookupNode_updateNode_self
      rw [hid]
      exact hnode
    · rw [hsplit]
      apply lookupNode_insertNode_fresh
      exact updateKeys_ne g.nodes _ freshId hfresh
    · intro t
      have he : clip.timeline_range.endFrame =
          clip.timeline_range.start + clip.timeline_range.duration := rfl
      simp only [FrameRange.covers, FrameRange.endFrame]
      omega
    · intro t
      simp only [FrameRange.covers, FrameRange.endFrame]
      intro ⟨⟨_, hl⟩, ⟨hr, _⟩⟩
      omega
  · intro f hout
    simp only [split_clip_at_frame, hb, hnid, hnode, hkind]
    rw [if_pos hout]

/-- The clip of scenario S6: timelineRange = (10, 50),
mediaRange = (100, 50). -/
def c7Clip : ClipNode :=
  { asset_id := some "b.mp4", media_range := FrameRange.mk 100 50,
    timeline_range := FrameRange.mk 10 50, playback_rate := 1,
    reverse := false }

/-- The node holding the S6 clip. -/
def c7Node : TimelineNode :=
  { id := 7, label := none, kind := TimelineNodeKind.clip c7Clip,
    locked := false, metadata := [] }

/-- The S6 witness graph: one video track with the clip. -/
def c7Graph : TimelineGraph :=
  { tracks := [{ id := 1, name := "V1", kind := TrackKind.video,
                 node_ids := [7] }],
    nodes := [(7, c7Node)] }

/-- Witness for C7, scenario S6: splitting at frame 30 yields a left clip
with timelineRange (10, 20) and mediaRange (100, 20) and a right clip
with timelineRange (30, 30) and mediaRange (120, 30); splitting at the
start boundary (frame 10) changes nothing. -/
theorem split_clip_at_frame_correct_witness :
    lookupNode (split_clip_at_frame c7Graph 0 0 30 8) 7 =
      some { c7Node with kind := TimelineNodeKind.clip { c7Clip with
        timeline_range := FrameRange.mk 10 20,
        media_range := FrameRange.mk 100 20 } } ∧
    lookupNode (split_clip_at_frame c7Graph 0 0 30 8) 8 =
      some
        { id := 8, label := none,
          kind := TimelineNodeKind.clip { c7Clip with
            timeline_range := FrameRange.mk 30 30,
            media_range := FrameRange.mk 120 30 },
          locked := false, metadata := [] } ∧
    split_clip_at_frame c7Graph 0 0 10 8 = c7Graph := by
  have hall := split_clip_at_frame_correct c7Graph 0 0
    { id := 1, name := "V1", kind := TrackKind.video, node_ids := [7] }
    7 c7Node c7Clip 8 rfl rfl (by decide) rfl rfl (by decide)
  have hin := hall.1 30 (by decide) (by decide)
  refine ⟨?_, ?_, hall.2 10 (Or.inl (by decide))⟩
  · have h := hin.1
    norm_num [c7Clip, c7Node] at h ⊢
    exact h
  · have h := hin.2.1
    norm_num [c7Clip, c7Node] at h ⊢
    exact h

/-! The scrub frame cache (preview/state.rs): FrameCacheKey (lines
1449-1466) and the LRU discipline of present_yuv (lines 329-350) over the
nv12_cache map and the nv12_keys deque. -/

/-- FrameCacheKey (state.rs lines 1449-1455). -/
structure FrameCacheKey : Type where
  path : String
  time_sec : ℕ
  width : ℕ
  height : ℕ
deriving DecidableEq, Repr

/-- Rust saturating float-to-u32 cast (negative values clamp to 0, large
values to u32::MAX). -/
def toU32Sat (n : ℤ) : ℕ := min (max n 0).toNat (2 ^ 32 - 1)

/-- FrameCacheKey::new (state.rs lines 1458-1465):
time bucket = (time_sec * 10.0).round() as u32. -/
def FrameCacheKey.new (path : String) (time_sec : ℚ) (width height : ℕ) :
    FrameCacheKey :=
  { path := path, time_sec := toU32Sat (rustRound (time_sec * 10)),
    width := width, height := height }

/-- Nv12Frame (state.rs line 1406), plane bytes as lists. -/
structure Nv12Frame : Type where
  fmt : YuvPixFmt
  y : List ℕ
  uv : List ℕ
  w : ℕ
  h : ℕ
deriving DecidableEq, Repr

/-- The cache fields of PreviewState: the nv12_cache map (modelled as an
association list) and the nv12_keys LRU deque (front = oldest). -/
structure LruCache : Type where
  nv12_cache : List (FrameCacheKey × Nv12Frame)
  nv12_keys : List FrameCacheKey
deriving DecidableEq, Repr

/-- The empty cache of PreviewState::new. -/
def emptyLru : LruCache := { nv12_cache := [], nv12_keys := [] }

/-- HashMap::get on the association-list model. -/
def cacheFind : List (FrameCacheKey × Nv12Frame) → FrameCacheKey →
    Option Nv12Frame
  | [], _ => none
  | p :: rest, k => if p.1 = k then some p.2 else cacheFind rest k

/-- The `position` + `remove(pos)` idiom of the hit path: remove the first
occurrence of a key from the deque. -/
def eraseFirstKey : List FrameCacheKey → FrameCacheKey → List FrameCacheKey
  | [], _ => []
  | k2 :: rest, k => if k2 = k then rest else k2 :: eraseFirstKey rest k

/-- HashMap::remove on the association-list model. -/
def storeRemove : List (FrameCacheKey × Nv12Frame) → FrameCacheKey →
    List (FrameCacheKey × Nv12Frame)
  | [], _ => []
  | p :: rest, k => if p.1 = k then rest else p :: storeRemove rest k

/-- HashMap::insert on the association-list model (replace or add). -/
def storeInsert : List (FrameCacheKey × Nv12Frame) → FrameCacheKey →
    Nv12Frame → List (FrameCacheKey × Nv12Frame)
  | [], k, v => [(k, v)]
  | p :: rest, k, v =>
      if p.1 = k then (k, v) :: rest else p :: storeInsert rest k v

/-- One cache access of present_yuv (state.rs lines 330-346): on a hit the
key is moved to the most-recently-used end of the deque; on a miss, when
decoding succeeds the frame is inserted, its key appended, and the oldest
key evicted once the deque exceeds 64 entries; when decoding fails the
cache is untouched. -/
def cacheTouch (c : LruCache) (k : FrameCacheKey) (decodeOk : Bool)
    (v : Nv12Frame) : LruCache :=
  match cacheFind c.nv12_cache k with
  | some _ =>
      { c with nv12_keys := eraseFirstKey c.nv12_keys k ++ [k] }
  | none =>
      if decodeOk then
        let store2 := storeInsert c.nv12_cache k v
        let keys2 := c.nv12_keys ++ [k]
        if 64 < keys2.length then
          match keys2 with
          | [] => { nv12_cache := store2, nv12_keys := [] }
          | old :: rest =>
              { nv12_cache := storeRemove store2 old, nv12_keys := rest }
        else { nv12_cache := store2, nv12_keys := keys2 }
      else c

/-- A sequence of cache accesses. -/
def cacheRun (c : LruCache) :
    List (FrameCacheKey × Bool × Nv12Frame) → LruCache
  | [] => c
  | (k, ok, v) :: rest => cacheRun (cacheTouch c k ok v) rest

/-- The key multiset of the map side of the cache. -/
def keysOf (c : LruCache) : List FrameCacheKey := c.nv12_cache.map Prod.fst

/-- The map and the deque stay in sync: the deque has no duplicates and is
a permutation of the map's keys. -/
def CacheWF (c : LruCache) : Prop :=
  c.nv12_keys.Nodup ∧ (keysOf c).Perm c.nv12_keys

theorem cacheFind_isSome_iff (store : List (FrameCacheKey × Nv12Frame))
    (k : FrameCacheKey) :
    (cacheFind store k).isSome ↔ k ∈ store.map Prod.fst := by
  induction store with
  | nil => simp [cacheFind]
  | cons p rest ih =>
      by_cases hp : p.1 = k
      · simp [cacheFind, hp]
      · simp only [cacheFind, if_neg hp, List.map_cons, List.mem_cons]
        constructor
        · exact fun h => Or.inr (ih.mp h)
        · rintro (hc | h)
          · exact absurd hc.symm hp
          · exact ih.mpr h

theorem eraseFirstKey_eq_erase (l : List FrameCacheKey) (k : FrameCacheKey) :
    eraseFirstKey l k = l.erase k := by
  induction l with
  | nil => rfl
  | cons k2 rest ih =>
      rw [List.erase_cons]
      by_cases hp : k2 = k
      · simp [eraseFirstKey, hp]
      · simp [eraseFirstKey, hp, ih]

theorem storeRemove_map_fst (store : List (FrameCacheKey × Nv12Frame))
    (k : FrameCacheKey) :
    (storeRemove store k).map Prod.fst = (store.map Prod.fst).erase k := by
  induction store with
  | nil => rfl
  | cons p rest ih =>
      rw [List.map_cons, List.erase_cons]
      by_cases hp : p.1 = k
      · simp [storeRemove, hp]
      · simp [storeRemove, hp, ih]

theorem storeInsert_map_fst (store : List (FrameCacheKey × Nv12Frame))
    (k : FrameCacheKey) (v : Nv12Frame) (h : k ∉ store.map Prod.fst) :
    (storeInsert store k v).map Prod.fst = store.map Prod.fst ++ [k] := by
  induction store with
  | nil => rfl
  | cons p rest ih =>
      simp only [List.map_cons, List.mem_cons] at h
      push_neg at h
      have hp : ¬ p.1 = k := fun hc => h.1 hc.symm
      simp [storeInsert, hp, ih h.2]

theorem nodup_append_singleton (l : List FrameCacheKey) (k : FrameCacheKey)
    (hnd : l.Nodup) (hk : k ∉ l) : (l ++ [k]).Nodup := by
  have h : (k :: l).Nodup := List.nodup_cons.mpr ⟨hk, hnd⟩
  exact (List.perm_append_singleton k l).nodup_iff.mpr h

theorem toFinset_card_append_singleton (ps : List FrameCacheKey)
    (k : FrameCacheKey) :
    (ps ++ [k]).toFinset.card =
      if k ∈ ps then ps.toFinset.card else ps.toFinset.card + 1 := by
  have h : (ps ++ [k]).toFinset = insert k ps.toFinset := by
    rw [List.toFinset_append]
    simp [Finset.union_comm, Finset.insert_eq]
  rw [h]
  by_cases hk : k ∈ ps
  · rw [Finset.card_insert_of_mem (List.mem_toFinset.mpr hk), if_pos hk]
  · rw [Finset.card_insert_of_not_mem (fun hc => hk (List.mem_toFinset.mp hc)),
      if_neg hk]

theorem cacheTouch_hit (c : LruCache) (k : FrameCacheKey) (ok : Bool)
    (v : Nv12Frame) (fr : Nv12Frame) (hfind : cacheFind c.nv12_cache k = some fr) :
    cacheTouch c k ok v =
      { c with nv12_keys := c.nv12_keys.erase k ++ [k] } := by
  unfold cacheTouch
  rw [hfind, eraseFirstKey_eq_erase]

theorem cacheTouch_miss_ok (c : LruCache) (k : FrameCacheKey) (v : Nv12Frame)
    (hfind : cacheFind c.nv12_cache k = none) :
    cacheTouch c k true v =
      if 64 < (c.nv12_keys ++ [k]).length then
        match c.nv12_keys ++ [k] with
        | [] => { nv12_cache := storeInsert c.nv12_cache k v, nv12_keys := [] }
        | old :: rest =>
            { nv12_cache := storeRemove (storeInsert c.nv12_cache k v) old,
              nv12_keys := rest }
      else { nv12_cache := storeInsert c.nv12_cache k v,
             nv12_keys := c.nv12_keys ++ [k] } := by
  unfold cacheTouch
  rw [hfind]
  rfl

theorem cacheTouch_miss_fail (c : LruCache) (k : FrameCacheKey)
    (v : Nv12Frame) (hfind : cacheFind c.nv12_cache k = none) :
    cacheTouch c k false v = c := by
  unfold cacheTouch
  rw [hfind]
  rfl

theorem cacheTouch_step_inv (c : LruCache) (k : FrameCacheKey)
    (v : Nv12Frame) (ps : List FrameCacheKey)
    (hwf : CacheWF c) (hsub : ∀ x ∈ keysOf c, x ∈ ps)
    (hlen : c.nv12_keys.length = min ps.toFinset.card 64)
    (hfull : c.nv12_keys.length < 64 → ∀ x ∈ ps, x ∈ c.nv12_keys) :
    CacheWF (cacheTouch c k true v) ∧
    (∀ x ∈ keysOf (cacheTouch c k true v), x ∈ ps ++ [k]) ∧
    (cacheTouch c k true v).nv12_keys.length =
      min (ps ++ [k]).toFinset.card 64 ∧
    ((cacheTouch c k true v).nv12_keys.length < 64 →
      ∀ x ∈ ps ++ [k], x ∈ (cacheTouch c k true v).nv12_keys) := by
  obtain ⟨hnd, hperm⟩ := hwf
  have hcard := toFinset_card_append_singleton ps k
  cases hfind : cacheFind c.nv12_cache k with
  | some fr =>
      rw [cacheTouch_hit c k true v fr hfind]
      have hmem : k ∈ keysOf c :=
        (cacheFind_isSome_iff _ _).mp (by rw [hfind]; rfl)
      have hmemk : k ∈ c.nv12_keys := hperm.mem_iff.mp hmem
      have hkps : k ∈ ps := hsub k hmem
      have hlen2 : (c.nv12_keys.erase k ++ [k]).length = c.nv12_keys.length := by
        rw [List.length_append, List.length_erase_of_mem hmemk]
        have : 1 ≤ c.nv12_keys.length := List.length_pos.mpr
          (List.ne_nil_of_mem hmemk)
        simp
        omega
      have hsame : ∀ x, x ∈ c.nv12_keys.erase k ++ [k] ↔ x ∈ c.nv12_keys := by
        intro x
        constructor
        · intro hx
          rcases List.mem_append.mp hx with hx | hx
          · exact List.mem_of_mem_erase hx
          · rw [List.mem_singleton.mp hx]
            exact hmemk
        · intro hx
          by_cases hxk : x = k
          · exact List.mem_append.mpr (Or.inr (by simp [hxk]))
          · exact List.mem_append.mpr (Or.inl ((List.mem_erase_of_ne hxk).mpr hx))
      refine ⟨⟨?_, ?_⟩, ?_, ?_, ?_⟩
      · have h : (k :: c.nv12_keys.erase k).Nodup :=
          List.nodup_cons.mpr ⟨List.Nodup.not_mem_erase hnd, hnd.erase k⟩
        exact (List.perm_append_singleton k _).nodup_iff.mpr h
      · show (keysOf c).Perm _
        exact hperm.trans ((List.perm_cons_erase hmemk).trans
          (List.perm_append_singleton k _).symm)
      · intro x hx
        exact List.mem_append.mpr (Or.inl (hsub x hx))
      · show (c.nv12_keys.erase k ++ [k]).length = _
        rw [hlen2, hcard, if_pos hkps]
        exact hlen
      · intro hl x hx
        rcases List.mem_append.mp hx with hx | hx
        · rw [hlen2] at hl
          exact (hsame x).mpr (hfull hl x hx)
        · rw [List.mem_singleton.mp hx]
          exact (hsame k).mpr hmemk
  | none =>
      have hknot : k ∉ keysOf c := by
        intro hc
        have h2 := (cacheFind_isSome_iff c.nv12_cache k).mpr hc
        rw [hfind] at h2
        simp at h2
      have hknotk : k ∉ c.nv12_keys := fun hc => hknot (hperm.mem_iff.mpr hc)
      have hmapfst := storeInsert_map_fst c.nv12_cache k v hknot
      rw [cacheTouch_miss_ok c k v hfind]
      by_cases hbig : 64 < (c.nv12_keys ++ [k]).length
      · rw [if_pos hbig]
        have hlen64 : c.nv12_keys.length = 64 := by
          rw [List.length_append] at hbig
          simp at hbig
          omega
        have hcardge : 64 ≤ ps.toFinset.card := by
          by_contra hc
          push_neg at hc
          rw [min_eq_left (by omega)] at hlen
          omega
        cases hkeys : c.nv12_keys ++ [k] with
        | nil => simp at hkeys
        | cons old rest =>
            have hrest : rest.length = 64 := by
              have := congrArg List.length hkeys
              rw [List.length_append] at this
              simp at this
              omega
            have hndall : (old :: rest).Nodup := by
              rw [← hkeys]
              exact nodup_append_singleton _ _ hnd hknotk
            have hpermall : (keysOf c ++ [k]).Perm (old :: rest) := by
              rw [← hkeys]
              exact hperm.append_right [k]
            refine ⟨⟨hndall.of_cons, ?_⟩, ?_, ?_, ?_⟩
            · show ((storeRemove (storeInsert c.nv12_cache k v) old).map
                Prod.fst).Perm rest
              rw [storeRemove_map_fst, hmapfst]
              have h2 := hpermall.erase old
              rw [List.erase_cons_head] at h2
              exact h2
            · intro x hx
              have hx1 : x ∈ (storeRemove (storeInsert c.nv12_cache k v)
                  old).map Prod.fst := hx
              rw [storeRemove_map_fst, hmapfst] at hx1
              have hx3 : x ∈ keysOf c ++ [k] := List.erase_subset _ _ hx1
              show x ∈ ps ++ [k]
              rcases List.mem_append.mp hx3 with hx4 | hx4
              · exact List.mem_append.mpr (Or.inl (hsub x hx4))
              · exact List.mem_append.mpr (Or.inr hx4)
            · show rest.length = _
              rw [hrest, hcard]
              split
              · omega
              · omega
            · intro hl
              rw [hrest] at hl
              omega
      · rw [if_neg hbig]
        have hsmall : c.nv12_keys.length < 64 := by
          rw [List.length_append] at hbig
          simp at hbig
          omega
        have hcardeq : ps.toFinset.card = c.nv12_keys.length := by
          rcases Nat.lt_or_ge ps.toFinset.card 64 with hc | hc
          · rw [min_eq_left (by omega)] at hlen
            omega
          · rw [min_eq_right hc] at hlen
            omega
        have hkps : k ∉ ps := by
          intro hc
          exact hknotk (hfull hsmall k hc)
        refine ⟨⟨nodup_append_singleton _ _ hnd hknotk, ?_⟩, ?_, ?_, ?_⟩
        · show ((storeInsert c.nv12_cache k v).map Prod.fst).Perm _
          rw [hmapfst]
          exact hperm.append_right [k]
        · intro x hx
          show x ∈ ps ++ [k]
          rw [show keysOf (⟨storeInsert c.nv12_cache k v,
              c.nv12_keys ++ [k]⟩ : LruCache) =
            keysOf c ++ [k] from hmapfst] at hx
          rcases List.mem_append.mp hx with hx | hx
          · exact List.mem_append.mpr (Or.inl (hsub x hx))
          · exact List.mem_append.mpr (Or.inr hx)
        · show (c.nv12_keys ++ [k]).length = _
          rw [List.length_append, hcard, if_neg hkps]
          simp
          omega
        · intro _ x hx
          rcases List.mem_append.mp hx with hx | hx
          · exact List.mem_append.mpr (Or.inl (hfull hsmall x hx))
          · exact List.mem_append.mpr (Or.inr hx)

theorem cacheTouch_wf_le (c : LruCache) (k : FrameCacheKey) (ok : Bool)
    (v : Nv12Frame) (hwf : CacheWF c) (hle : c.nv12_keys.length ≤ 64) :
    CacheWF (cacheTouch c k ok v) ∧
      (cacheTouch c k ok v).nv12_keys.length ≤ 64 := by
  obtain ⟨hnd, hperm⟩ := hwf
  cases hfind : cacheFind c.nv12_cache k with
  | some fr =>
      rw [cacheTouch_hit c k ok v fr hfind]
      have hmem : k ∈ keysOf c :=
        (cacheFind_isSome_iff _ _).mp (by rw [hfind]; rfl)
      have hmemk : k ∈ c.nv12_keys := hperm.mem_iff.mp hmem
      have hlen2 : (c.nv12_keys.erase k ++ [k]).length = c.nv12_keys.length := by
        rw [List.length_append, List.length_erase_of_mem hmemk]
        have : 1 ≤ c.nv12_keys.length := List.length_pos.mpr
          (List.ne_nil_of_mem hmemk)
        simp
        omega
      refine ⟨⟨?_, ?_⟩, ?_⟩
      · have h : (k :: c.nv12_keys.erase k).Nodup :=
          List.nodup_cons.mpr ⟨List.Nodup.not_mem_erase hnd, hnd.erase k⟩
        exact (List.perm_append_singleton k _).nodup_iff.mpr h
      · exact hperm.trans ((List.perm_cons_erase hmemk).trans
          (List.perm_append_singleton k _).symm)
      · show (c.nv12_keys.erase k ++ [k]).length ≤ 64
        omega
  | none =>
      cases ok with
      | false =>
          rw [cacheTouch_miss_fail c k v hfind]
          exact ⟨⟨hnd, hperm⟩, hle⟩
      | true =>
          have hknot : k ∉ keysOf c := by
            intro hc
            have h2 := (cacheFind_isSome_iff c.nv12_cache k).mpr hc
            rw [hfind] at h2
            simp at h2
          have hknotk : k ∉ c.nv12_keys := fun hc => hknot (hperm.mem_iff.mpr hc)
          have hmapfst := storeInsert_map_fst c.nv12_cache k v hknot
          rw [cacheTouch_miss_ok c k v hfind]
          by_cases hbig : 64 < (c.nv12_keys ++ [k]).length
          · rw [if_pos hbig]
            cases hkeys : c.nv12_keys ++ [k] with
            | nil => simp at hkeys
            | cons old rest =>
                have hrest : rest.length + 1 = c.nv12_keys.length + 1 := by
                  have h2 := congrArg List.length hkeys
                  rw [List.length_append] at h2
                  simp at h2
                  omega
                have hndall : (old :: rest).Nodup := by
                  rw [← hkeys]
                  exact nodup_append_singleton _ _ hnd hknotk
                have hpermall : (keysOf c ++ [k]).Perm (old :: rest) := by
                  rw [← hkeys]
                  exact hperm.append_right [k]
                refine ⟨⟨hndall.of_cons, ?_⟩, ?_⟩
                · show ((storeRemove (storeInsert c.nv12_cache k v) old).map
                    Prod.fst).Perm rest
                  rw [storeRemove_map_fst, hmapfst]
                  have h2 := hpermall.erase old
                  rw [List.erase_cons_head] at h2
                  exact h2
                · show rest.length ≤ 64
                  omega
          · rw [if_neg hbig]
            refine ⟨⟨nodup_append_singleton _ _ hnd hknotk, ?_⟩, ?_⟩
            · show ((storeInsert c.nv12_cache k v).map Prod.fst).Perm _
              rw [hmapfst]
              exact hperm.append_right [k]
            · show (c.nv12_keys ++ [k]).length ≤ 64
              omega

theorem store_length_eq (c : LruCache) (hwf : CacheWF c) :
    c.nv12_cache.length = c.nv12_keys.length := by
  have h := hwf.2.length_eq
  rw [show (keysOf c).length = c.nv12_cache.length from List.length_map _ _] at h
  exact h

/-- The empty cache is well formed. -/
theorem emptyLru_wf : CacheWF emptyLru :=
  ⟨List.nodup_nil, List.Perm.refl _⟩

theorem cacheRun_wf_le (rs : List (FrameCacheKey × Bool × Nv12Frame)) :
    ∀ c : LruCache, CacheWF c → c.nv12_keys.length ≤ 64 →
      CacheWF (cacheRun c rs) ∧ (cacheRun c rs).nv12_keys.length ≤ 64 := by
  induction rs with
  | nil =>
      intro c hwf hle
      exact ⟨hwf, hle⟩
  | cons r rest ih =>
      intro c hwf hle
      obtain ⟨hwf1, hle1⟩ := cacheTouch_wf_le c r.1 r.2.1 r.2.2 hwf hle
      exact ih (cacheTouch c r.1 r.2.1 r.2.2) hwf1 hle1

theorem cacheRun_append (c : LruCache)
    (l r : List (FrameCacheKey × Bool × Nv12Frame)) :
    cacheRun c (l ++ r) = cacheRun (cacheRun c l) r := by
  induction l generalizing c with
  | nil => rfl
  | cons p rest ih =>
      show cacheRun (cacheTouch c p.1 p.2.1 p.2.2) (rest ++ r) = _
      exact ih (cacheTouch c p.1 p.2.1 p.2.2)

theorem cacheTouch_keys_getLast (c : LruCache) (k : FrameCacheKey)
    (v : Nv12Frame) :
    (cacheTouch c k true v).nv12_keys.getLast? = some k := by
  cases hfind : cacheFind c.nv12_cache k with
  | some fr =>
      rw [cacheTouch_hit c k true v fr hfind]
      exact List.getLast?_concat _
  | none =>
      rw [cacheTouch_miss_ok c k v hfind]
      by_cases hbig : 64 < (c.nv12_keys ++ [k]).length
      · rw [if_pos hbig]
        cases hks : c.nv12_keys with
        | nil =>
            rw [hks] at hbig
            simp at hbig
        | cons a ks =>
            show (ks ++ [k]).getLast? = some k
            exact List.getLast?_concat _
      · rw [if_neg hbig]
        exact List.getLast?_concat _

theorem cacheRun_scenario (rs : List (FrameCacheKey × Nv12Frame)) :
    ∀ (c : LruCache) (ps : List FrameCacheKey),
      CacheWF c → (∀ x ∈ keysOf c, x ∈ ps) →
      c.nv12_keys.length = min ps.toFinset.card 64 →
      (c.nv12_keys.length < 64 → ∀ x ∈ ps, x ∈ c.nv12_keys) →
      CacheWF (cacheRun c (rs.map (fun r => (r.1, true, r.2)))) ∧
      (cacheRun c (rs.map (fun r => (r.1, true, r.2)))).nv12_keys.length =
        min (ps ++ rs.map Prod.fst).toFinset.card 64 := by
  induction rs with
  | nil =>
      intro c ps hwf hsub hlen hfull
      exact ⟨hwf, by simpa using hlen⟩
  | cons r rest ih =>
      intro c ps hwf hsub hlen hfull
      obtain ⟨hwf1, hsub1, hlen1, hfull1⟩ :=
        cacheTouch_step_inv c r.1 r.2 ps hwf hsub hlen hfull
      have h := ih (cacheTouch c r.1 true r.2) (ps ++ [r.1])
        hwf1 hsub1 hlen1 hfull1
      rw [List.append_assoc] at h
      simpa [cacheRun] using h

/-- C8: the scrub cache behaves as an LRU of capacity 64 over keys
(path, round(tSec*10), width, height): a lookup hit moves the key to the
most-recently-used end of the deque and leaves the map untouched; after
any sequence of accesses starting from the empty cache both the deque and
the map hold at most 64 entries; and after any request sequence (each
decode succeeding) touching more than 64 distinct keys, the cache holds
exactly 64 entries and the most-recently accessed key sits at the
most-recently-used end. -/
theorem frame_cache_lru_correct :
    (∀ (c : LruCache) (k : FrameCacheKey) (ok : Bool) (v fr : Nv12Frame),
      cacheFind c.nv12_cache k = some fr →
      cacheTouch c k ok v =
        { c with nv12_keys := c.nv12_keys.erase k ++ [k] }) ∧
    (∀ rs : List (FrameCacheKey × Bool × Nv12Frame),
      (cacheRun emptyLru rs).nv12_keys.length ≤ 64 ∧
      (cacheRun emptyLru rs).nv12_cache.length ≤ 64) ∧
    (∀ (rs : List (FrameCacheKey × Nv12Frame)) (klast : FrameCacheKey)
        (vlast : Nv12Frame),
      64 < ((rs ++ [(klast, vlast)]).map Prod.fst).toFinset.card →
      (cacheRun emptyLru ((rs ++ [(klast, vlast)]).map
        (fun r => (r.1, true, r.2)))).nv12_cache.length = 64 ∧
      (cacheRun emptyLru ((rs ++ [(klast, vlast)]).map
        (fun r => (r.1, true, r.2)))).nv12_keys.length = 64 ∧
      (cacheRun emptyLru ((rs ++ [(klast, vlast)]).map
        (fun r => (r.1, true, r.2)))).nv12_keys.getLast? = some klast) := by
  refine ⟨?_, ?_, ?_⟩
  · intro c k ok v fr hfind
    exact cacheTouch_hit c k ok v fr hfind
  · intro rs
    obtain ⟨hwf, hle⟩ := cacheRun_wf_le rs emptyLru emptyLru_wf (by simp [emptyLru])
    refine ⟨hle, ?_⟩
    rw [store_length_eq _ hwf]
    exact hle
  · intro rs klast vlast hcard
    obtain ⟨hwf, hlen⟩ := cacheRun_scenario (rs ++ [(klast, vlast)])
      emptyLru [] emptyLru_wf (by simp [emptyLru, keysOf])
      (by simp [emptyLru]) (by intro _ x hx; simp at hx)
    rw [List.nil_append] at hlen
    rw [min_eq_right (by omega)] at hlen
    refine ⟨?_, hlen, ?_⟩
    · rw [store_length_eq _ hwf]
      exact hlen
    · rw [List.map_append, cacheRun_append]
      exact cacheTouch_keys_getLast _ _ _

/-- A family of distinct cache keys for the witness. -/
def wKey (i : ℕ) : FrameCacheKey :=
  { path := "", time_sec := i, width := 0, height := 0 }

/-- A trivial cached frame for the witness. -/
def wFrame : Nv12Frame := { fmt := .nv12, y := [], uv := [], w := 0, h := 0 }

/-- A two-entry cache used to witness the hit behavior. -/
def wHitCache : LruCache :=
  { nv12_cache := [(wKey 0, wFrame), (wKey 1, wFrame)],
    nv12_keys := [wKey 0, wKey 1] }

/-- Witness for C8: a concrete hit moves the key to the back; a concrete
65-distinct-key all-miss run ends with exactly 64 entries and the last
key most recent. -/
theorem frame_cache_lru_correct_witness :
    (cacheFind wHitCache.nv12_cache (wKey 0) = some wFrame ∧
      cacheTouch wHitCache (wKey 0) true wFrame =
        { wHitCache with
          nv12_keys := wHitCache.nv12_keys.erase (wKey 0) ++ [wKey 0] }) ∧
    (64 < (((List.range 64).map (fun i => (wKey i, wFrame)) ++
        [(wKey 64, wFrame)]).map Prod.fst).toFinset.card ∧
      (cacheRun emptyLru (((List.range 64).map (fun i => (wKey i, wFrame)) ++
        [(wKey 64, wFrame)]).map (fun r => (r.1, true, r.2)))).nv12_keys.length = 64 ∧
      (cacheRun emptyLru (((List.range 64).map (fun i => (wKey i, wFrame)) ++
        [(wKey 64, wFrame)]).map
          (fun r => (r.1, true, r.2)))).nv12_keys.getLast? = some (wKey 64)) := by
  have hcard : 64 < (((List.range 64).map (fun i => (wKey i, wFrame)) ++
      [(wKey 64, wFrame)]).map Prod.fst).toFinset.card := by decide
  have h3 := frame_cache_lru_correct.2.2
    ((List.range 64).map (fun i => (wKey i, wFrame))) (wKey 64) wFrame hcard
  exact ⟨⟨by decide, frame_cache_lru_correct.1 wHitCache (wKey 0) true wFrame
    wFrame (by decide)⟩, hcard, h3.2.1, h3.2.2⟩

end Spec2Proof
